import Mathlib

/-!
Verification development for the OpenManus-VSCode bridge.

The definitions below are a shallow embedding of the two bridge
implementations of the repository:

* `MCPBridge` embeds `src/mcp/MCPBridge.ts` (WebSocket transport,
  request/response correlation, reconnect supervisor, tool catalog);
* `OMP` embeds the stdio-based `OpenManusProcess` (correlation callbacks
  and the brace-depth output framer `processOutput`).

Stateful TypeScript is modelled by explicit state passing: each method
becomes a function from the relevant state to the new state together with
the externally observable events it produces (broadcast deliveries and
promise settlements).  JavaScript `Map` objects become association lists,
JS string truthiness is modelled explicitly, and the `[...]` array-copy
idiom is modelled with a small allocation store.
-/

namespace MCPBridge

/-- Message kinds of the `MCPMessageType` enum in `src/mcp/MCPBridge.ts`. -/
inductive MCPMessageType
  | connect
  | list_tools
  | execute_tool
  | tool_result
  | error
  | ping
  | pong
deriving DecidableEq

/-- String value of each enum member, as used in the template literal of the
`executeTool` rejection message. -/
def typeStr : MCPMessageType → String
  | .connect => "connect"
  | .list_tools => "list_tools"
  | .execute_tool => "execute_tool"
  | .tool_result => "tool_result"
  | .error => "error"
  | .ping => "ping"
  | .pong => "pong"

/-- JSON-like payload values standing in for TypeScript `unknown`. -/
inductive JVal
  | null
  | str (s : String)
  | arr (xs : List String)
deriving DecidableEq

/-- One entry of a tool's `parameters` array (`MCPTool` in the source). -/
structure MCPToolParam where
  type : String
  description : String
  required : Bool
deriving DecidableEq

/-- The `MCPTool` interface of `src/mcp/MCPBridge.ts`. -/
structure MCPTool where
  name : String
  description : String
  parameters : List MCPToolParam
deriving DecidableEq

/-- The `MCPMessage` interface together with the optional fields of its
subtypes (`tools`, `tool`, `result`, `error`).  A field that is absent on
the wire is `none`. -/
structure MCPMessage where
  type : MCPMessageType
  id : Option String := none
  timestamp : Option Nat := none
  tools : Option (List MCPTool) := none
  tool : Option String := none
  result : Option JVal := none
  error : Option String := none
deriving DecidableEq

/-- Which response callback is registered in `messageHandlers` under a given
id: `listTools()` and `executeTool()` each register one closure. -/
inductive HandlerKind
  | listToolsCb
  | executeToolCb
deriving DecidableEq

/-- Observable settlement of a caller's promise. -/
inductive Settle
  | resolveTools (ts : List MCPTool)
  | resolveResult (r : Option JVal)
  | reject (msg : String)
deriving DecidableEq

/-- A settlement event: which request id settled, and how. -/
abbrev Settlement := String × Settle

/-- Association-list lookup modelling `Map.get` (with `Map.has` being
`isSome` of this). -/
def mapGet {β : Type} : List (String × β) → String → Option β
  | [], _ => none
  | (k', v) :: rest, k => if k' = k then some v else mapGet rest k

/-- Association-list removal modelling `Map.delete`. -/
def mapDel {β : Type} : List (String × β) → String → List (String × β)
  | [], _ => []
  | (k', v) :: rest, k => if k' = k then mapDel rest k else (k', v) :: mapDel rest k

/-- JS `||` on an optional string with a default: `undefined` and the empty
string are falsy. -/
def strOr (o : Option String) (d : String) : String :=
  match o with
  | some s => if s = "" then d else s
  | none => d

/-- Mutable fields of the `MCPBridge` class.  `wsAlive` records whether a
WebSocket object (with its registered listeners) exists; `reconnectTimer`
holds the delay of the armed timer; `pingOn` whether `pingInterval` is set. -/
structure State where
  connected : Bool := false
  wsAlive : Bool := false
  messageQueue : List MCPMessage := []
  handlers : List (String × HandlerKind) := []
  tools : List MCPTool := []
  reconnectAttempts : Nat := 0
  reconnectTimer : Option Nat := none
  pingOn : Bool := false
deriving DecidableEq

/-- The response closure registered by `listTools()` (stores the `tools`
field into the cache, `|| []` on absence, and resolves with it) and by
`executeTool()` (reject on `error` kind, resolve the `result` on
`tool_result`, reject an unexpected kind). -/
def runHandler (k : HandlerKind) (reqId : String) (s : State) (response : MCPMessage) :
    State × List Settlement :=
  match k with
  | .listToolsCb =>
      let ts := response.tools.getD []
      ({ s with tools := ts }, [(reqId, .resolveTools ts)])
  | .executeToolCb =>
      if response.type = .error then
        (s, [(reqId, .reject (strOr response.error "Unknown error"))])
      else if response.type = .tool_result then
        (s, [(reqId, .resolveResult response.result)])
      else
        (s, [(reqId, .reject ("Unexpected response type: " ++ typeStr response.type))])

/-- `MCPBridge.handleMessage`: update the tool cache on a `list_tools`
message that carries a `tools` field, fire the event emitter (every
broadcast subscriber receives the message), then run and delete the
id-registered handler if one exists.  Returns the new state, the list of
messages delivered to broadcast subscribers, and the settlements. -/
def handleMessage (s : State) (m : MCPMessage) :
    State × List MCPMessage × List Settlement :=
  let s1 :=
    match m.tools with
    | some ts => if m.type = .list_tools then { s with tools := ts } else s
    | none => s
  let broadcasts := [m]
  match m.id with
  | some i =>
      match mapGet s1.handlers i with
      | some k =>
          let (s2, st) := runHandler k i s1 m
          ({ s2 with handlers := mapDel s2.handlers i }, broadcasts, st)
      | none => (s1, broadcasts, [])
  | none => (s1, broadcasts, [])

/-- The `setTimeout` body of `executeTool` firing after 60 s: if the handler
for the id is still registered, delete it and reject with the timeout
error. -/
def executeToolTimeout (s : State) (reqId : String) : State × List Settlement :=
  if (mapGet s.handlers reqId).isSome then
    ({ s with handlers := mapDel s.handlers reqId },
      [(reqId, .reject "Tool execution timed out")])
  else (s, [])

/-- The `setTimeout` body of `listTools` firing after 5 s: delete the
handler if still registered and resolve with the empty catalog. -/
def listToolsTimeout (s : State) (reqId : String) : State × List Settlement :=
  if (mapGet s.handlers reqId).isSome then
    ({ s with handlers := mapDel s.handlers reqId }, [(reqId, .resolveTools [])])
  else (s, [])

/-- `MCPBridge.scheduleReconnect`: clear any armed timer, arm a new one with
delay `min(2 ** attempts * 1000, 30000)`, and increment the attempt
counter. -/
def scheduleReconnect (s : State) : State :=
  let delay := min (2 ^ s.reconnectAttempts * 1000) 30000
  { s with reconnectTimer := some delay, reconnectAttempts := s.reconnectAttempts + 1 }

/-- The listener registered with `this.ws.on` for the close event: set
`connected = false`, stop the ping interval, and schedule a reconnect.
It stays registered on the socket object even after `disconnect()`. -/
def closeHandler (s : State) : State :=
  scheduleReconnect { s with connected := false, pingOn := false }

/-- `MCPBridge.disconnect`: stop the ping interval, clear the reconnect
timer, `terminate()` the socket if one exists and null the reference, set
`connected = false`.  The returned Boolean records whether a terminate was
issued, i.e. whether the socket will emit its close event afterwards. -/
def disconnect (s : State) : State × Bool :=
  let s1 := { s with pingOn := false, reconnectTimer := none }
  if s.wsAlive then
    ({ s1 with wsAlive := false, connected := false }, true)
  else
    ({ s1 with connected := false }, false)

/-- `MCPBridge.dispose`: call `disconnect()` and dispose the event emitter.
No code path settles any entry of `messageHandlers`, so the settlement list
is empty. -/
def dispose (s : State) : (State × Bool) × List Settlement :=
  (disconnect s, [])

/-- Allocation store modelling JS array objects: `next` is the next fresh
reference, `mem` maps a reference to the array contents it holds. -/
structure Store where
  next : Nat
  mem : Nat → List MCPTool

/-- Allocate a fresh array holding `v`. -/
def Store.alloc (σ : Store) (v : List MCPTool) : Nat × Store :=
  (σ.next, ⟨σ.next + 1, fun r => if r = σ.next then v else σ.mem r⟩)

/-- Overwrite the contents of the array behind reference `r` (modelling any
caller-side mutation of that array). -/
def Store.write (σ : Store) (r : Nat) (v : List MCPTool) : Store :=
  ⟨σ.next, fun r' => if r' = r then v else σ.mem r'⟩

/-- Read the contents of the array behind reference `r`. -/
def Store.read (σ : Store) (r : Nat) : List MCPTool := σ.mem r

/-- `MCPBridge.getTools`: `return [...this.tools]` — allocate a fresh array
holding a copy of the contents of the internal `tools` array. -/
def getTools (toolsRef : Nat) (σ : Store) : Nat × Store :=
  σ.alloc (σ.read toolsRef)

/-- Delays of `n` consecutive `scheduleReconnect` calls starting from
state `s` (the delay each call arms its timer with). -/
def reconnectDelaySeq : Nat → State → List Nat
  | 0, _ => []
  | n + 1, s =>
      let s' := scheduleReconnect s
      s'.reconnectTimer.getD 0 :: reconnectDelaySeq n s'

end MCPBridge

namespace OMP

/-- Message kinds of the `MCPMessageType` enum of `OpenManusProcess`.  The
source member `Initialize` (wire value `"initialize"`) is spelled
`initialize'` here. -/
inductive MsgType
  | initialize'
  | execute_tool
  | execute_tool_response
  | prompt
  | prompt_response
  | error
deriving DecidableEq

/-- The `MCPTool` interface of `OpenManusProcess` (`parameters` is an
untyped record, modelled as a key/value list). -/
structure Tool where
  name : String
  description : String
  parameters : List (String × String)
deriving DecidableEq

/-- The `MCPMessage` interface of `OpenManusProcess`: a kind plus optional
fields. -/
structure Msg where
  type : MsgType
  id : Option String := none
  tools : Option (List Tool) := none
  content : Option String := none
  tool_name : Option String := none
  tool_input : Option (List (String × String)) := none
  tool_output : Option String := none
  error : Option String := none
deriving DecidableEq

/-- Which response callback is registered in `messageCallbacks` under a
given id: `sendPrompt`, `executeTool` and `getAvailableTools` each register
one closure. -/
inductive CbKind
  | promptCb
  | execToolCb
  | getToolsCb
deriving DecidableEq

/-- Values a promise of `OpenManusProcess` resolves with (all three public
calls resolve, possibly with `null`). -/
inductive OVal
  | str (s : String)
  | tools (ts : List Tool)
deriving DecidableEq

/-- A settlement event: request id and resolved value (`none` models
`resolve(null)`). -/
abbrev OSettle := String × Option OVal

/-- JS truthiness of an optional string: absent and empty are falsy. -/
def truthy (o : Option String) : Bool :=
  match o with
  | some s => s ≠ ""
  | none => false

/-- JS `x || null` on an optional string. -/
def strOrNull (o : Option String) : Option String :=
  match o with
  | some s => if s = "" then none else some s
  | none => none

/-- The response closures of `OpenManusProcess`:

* `sendPrompt` resolves with the content on a truthy-content
  `prompt_response`, resolves `null` on an `error` message, and otherwise
  settles nothing;
* `executeTool` resolves with `tool_output || null` on an
  `execute_tool_response`, and resolves `null` otherwise;
* `getAvailableTools` resolves with the tools on an `initialize` message
  carrying a `tools` field, and resolves `null` otherwise. -/
def runCallback (k : CbKind) (reqId : String) (m : Msg) : List OSettle :=
  match k with
  | .promptCb =>
      if m.type = .prompt_response ∧ truthy m.content then
        [(reqId, some (.str (m.content.getD "")))]
      else if m.type = .error then
        [(reqId, none)]
      else
        []
  | .execToolCb =>
      if m.type = .execute_tool_response then
        [(reqId, ((strOrNull m.tool_output).map .str))]
      else if m.type = .error then
        [(reqId, none)]
      else
        [(reqId, none)]
  | .getToolsCb =>
      if m.type = .initialize' ∧ m.tools.isSome then
        [(reqId, some (.tools (m.tools.getD [])))]
      else
        [(reqId, none)]

/-- Mutable fields of `OpenManusProcess` relevant to correlation. -/
structure PState where
  isReady : Bool := false
  callbacks : List (String × CbKind) := []
deriving DecidableEq

/-- `OpenManusProcess.handleMessage`: notify every `onMessage` listener,
then run and delete the id-registered callback if one exists, then set
`isReady` on an `initialize` message.  Returns the new state, the broadcast
deliveries, and the settlements. -/
def handleMessage (s : PState) (m : Msg) : PState × List Msg × List OSettle :=
  let broadcasts := [m]
  let (s1, settles) :=
    match m.id with
    | some i =>
        match MCPBridge.mapGet s.callbacks i with
        | some k => ({ s with callbacks := MCPBridge.mapDel s.callbacks i },
                      runCallback k i m)
        | none => (s, [])
    | none => (s, [])
  let s2 := if m.type = .initialize' then { s1 with isReady := true } else s1
  (s2, broadcasts, settles)

/-- The `setTimeout` body shared by `sendPrompt`, `executeTool` and
`getAvailableTools`: if the callback for the id is still registered, delete
it and resolve the promise with `null`. -/
def timeoutFire (s : PState) (reqId : String) : PState × List OSettle :=
  if (MCPBridge.mapGet s.callbacks reqId).isSome then
    ({ s with callbacks := MCPBridge.mapDel s.callbacks reqId }, [(reqId, none)])
  else (s, [])

/-- External events driving the correlator: an inbound decoded message, or
the firing of a request's timeout timer. -/
inductive Ev
  | deliver (m : Msg)
  | timeout (reqId : String)

/-- One event step, returning the settlements it produces. -/
def step (s : PState) (e : Ev) : PState × List OSettle :=
  match e with
  | .deliver m =>
      let r := handleMessage s m
      (r.1, r.2.2)
  | .timeout i => timeoutFire s i

/-- Run a sequence of events, collecting all settlements in order. -/
def runTrace (s : PState) : List Ev → PState × List OSettle
  | [] => (s, [])
  | e :: es =>
      let r1 := step s e
      let r2 := runTrace r1.1 es
      (r2.1, r1.2 ++ r2.2)

/-- All settlements of request `i` within a settlement list. -/
def settlementsFor (i : String) (l : List OSettle) : List (Option OVal) :=
  (l.filter fun p => p.1 = i).map (·.2)

/-! ### The brace-depth framer (`OpenManusProcess.processOutput`)

Buffers and frames are modelled as `List Char`; the decoded-message type
and the JSON decoder (`JSON.parse` in the source) are parameters. -/

/-- Index of the first occurrence of `c` (`String.indexOf`). -/
def firstIdx : List Char → Char → Option Nat
  | [], _ => none
  | a :: rest, c => if a = c then some 0 else (firstIdx rest c).map (· + 1)

/-- First index of `c` at or after `start` (`String.indexOf(c, start)`). -/
def idxFrom (cs : List Char) (c : Char) (start : Nat) : Option Nat :=
  (firstIdx (cs.drop start) c).map (· + start)

/-- The depth-counting loop of `processOutput`: walking the characters from
absolute index `i` with the current `depth`, return the absolute index of
the brace that brings the depth back to 0. -/
def scanAux : List Char → Int → Nat → Option Nat
  | [], _, _ => none
  | a :: rest, depth, i =>
      if a = '{' then scanAux rest (depth + 1) (i + 1)
      else if a = '}' then
        if depth - 1 = 0 then some i else scanAux rest (depth - 1) (i + 1)
      else scanAux rest depth (i + 1)

/-- Index of the closing brace matching the opening brace at index `s`. -/
def scanEnd (cs : List Char) (s : Nat) : Option Nat := scanAux (cs.drop s) 0 s

/-- One `processOutput` invocation run to quiescence, with explicit fuel
bounding the recursion depth (each extracted or skipped frame consumes at
least one character, so `buf.length` fuel suffices).  Tail behaviour per
round: no opening brace or no matching close ⇒ keep the buffer and stop; a
complete frame that decodes ⇒ emit it, drop it from the buffer and
continue; a complete frame that fails to decode ⇒ count one decode error,
resynchronize at the next opening brace (or clear the buffer) and stop.
Returns (emitted messages, decode-error count, residual buffer). -/
def processOutput {α : Type} (parse : List Char → Option α) :
    Nat → List Char → List α × Nat × List Char
  | 0, buf => ([], 0, buf)
  | fuel + 1, buf =>
      match firstIdx buf '{' with
      | none => ([], 0, buf)
      | some s =>
          match scanEnd buf s with
          | none => ([], 0, buf)
          | some e =>
              let frame := (buf.drop s).take (e + 1 - s)
              match parse frame with
              | some m =>
                  (m :: (processOutput parse fuel (buf.drop (e + 1))).1,
                   (processOutput parse fuel (buf.drop (e + 1))).2.1,
                   (processOutput parse fuel (buf.drop (e + 1))).2.2)
              | none =>
                  match idxFrom buf '{' (s + 1) with
                  | some ns => ([], 1, buf.drop ns)
                  | none => ([], 1, [])

/-- `processOutput` at its canonical fuel. -/
def runFramer {α : Type} (parse : List Char → Option α) (buf : List Char) :
    List α × Nat × List Char :=
  processOutput parse buf.length buf

/-- Feeding a sequence of stdout chunks one `data` event at a time: each
chunk is appended to the residual buffer and `processOutput` runs to
quiescence.  Accumulates emitted messages and decode errors. -/
def feedChunks {α : Type} (parse : List Char → Option α) :
    List Char → List (List Char) → List α × Nat × List Char
  | b, [] => ([], 0, b)
  | b, c :: cs =>
      ((runFramer parse (b ++ c)).1
          ++ (feedChunks parse (runFramer parse (b ++ c)).2.2 cs).1,
       (runFramer parse (b ++ c)).2.1
          + (feedChunks parse (runFramer parse (b ++ c)).2.2 cs).2.1,
       (feedChunks parse (runFramer parse (b ++ c)).2.2 cs).2.2)

/-! ### Serialization model (`sendMessage` / `JSON.stringify` / `JSON.parse`)

`sendPrompt` sends `JSON.stringify({type: 'prompt', id, content})`; the
object is serialized in insertion order.  Only the prompt-message shape is
needed here. -/

/-- JSON string escaping of a single character as `JSON.stringify` performs
it for the characters occurring in this development. -/
def jsonEscapeChar (c : Char) : List Char :=
  if c = '"' then ['\\', '"']
  else if c = '\\' then ['\\', '\\']
  else if c = '\n' then ['\\', 'n']
  else if c = '\r' then ['\\', 'r']
  else if c = '\t' then ['\\', 't']
  else [c]

/-- JSON string escaping of a character sequence. -/
def jsonEscape (s : List Char) : List Char := (s.map jsonEscapeChar).flatten

/-- Wrap a character sequence in double quotes. -/
def quoted (s : List Char) : List Char := '"' :: (s ++ ['"'])

/-- `JSON.stringify({type: 'prompt', id: msgId, content})` as emitted by
`sendPrompt` via `sendMessage` (without the trailing newline, which the
framer ignores anyway). -/
def serializePrompt (msgId content : List Char) : List Char :=
  ['{'] ++ quoted ("type".toList) ++ [':'] ++ quoted ("prompt".toList)
    ++ [','] ++ quoted ("id".toList) ++ [':'] ++ quoted (jsonEscape msgId)
    ++ [','] ++ quoted ("content".toList) ++ [':'] ++ quoted (jsonEscape content)
    ++ ['}']

/-- Decode one JSON escape sequence character (inverse of
`jsonEscapeChar`). -/
def jsonUnescapeChar (c : Char) : Option Char :=
  if c = '"' then some '"'
  else if c = '\\' then some '\\'
  else if c = 'n' then some '\n'
  else if c = 'r' then some '\r'
  else if c = 't' then some '\t'
  else none

/-- Consume a JSON string body up to its closing quote, decoding escapes;
`none` on an unterminated string or unknown escape — exactly the inputs
`JSON.parse` rejects with a syntax error (restricted to the escapes of
`jsonEscapeChar`). -/
def parseStrBody : List Char → Option (List Char × List Char)
  | [] => none
  | '\\' :: rest =>
      match rest with
      | [] => none
      | e :: rest' =>
          match jsonUnescapeChar e with
          | some c =>
              match parseStrBody rest' with
              | some (cs, tail) => some (c :: cs, tail)
              | none => none
          | none => none
  | '"' :: rest => some ([], rest)
  | c :: rest =>
      match parseStrBody rest with
      | some (cs, tail) => some (c :: cs, tail)
      | none => none

/-- Strip an exact leading character sequence. -/
def stripLead : List Char → List Char → Option (List Char)
  | [], l => some l
  | p :: ps, c :: cs => if c = p then stripLead ps cs else none
  | _ :: _, [] => none

/-- Modelled from the spec: `JSON.parse` restricted to the prompt-message
object shape `serializePrompt` emits (§6 wire schema, row `prompt`).  It
returns the `id` and `content` fields on exactly that shape and `none`
otherwise; in particular it rejects every frame `JSON.parse` rejects, such
as a frame ending inside an unterminated string literal. -/
def parsePromptMsg (l : List Char) : Option (List Char × List Char) :=
  match stripLead (['{'] ++ quoted ("type".toList) ++ [':']
      ++ quoted ("prompt".toList) ++ [','] ++ quoted ("id".toList)
      ++ [':'] ++ ['"']) l with
  | none => none
  | some r1 =>
      match parseStrBody r1 with
      | none => none
      | some (idv, r2) =>
          match stripLead ([','] ++ quoted ("content".toList) ++ [':'] ++ ['"']) r2 with
          | none => none
          | some r3 =>
              match parseStrBody r3 with
              | none => none
              | some (cv, r4) =>
                  if r4 = ['}'] then some (idv, cv) else none

end OMP

/-! ### Concrete fixtures used by the counterexample theorems and witnesses -/

/-- A process state with one pending `sendPrompt` request of id `r1`. -/
def promptPending : OMP.PState :=
  { isReady := true, callbacks := [("r1", .promptCb)] }

/-- A reply that carries the pending id `r1` but an unexpected kind. -/
def staleReply : OMP.Msg :=
  { type := .execute_tool_response, id := some "r1" }

/-- A bridge in the connected state with a live socket. -/
def connectedSt : MCPBridge.State :=
  { connected := true, wsAlive := true, pingOn := true }

/-- A connected bridge with one pending `executeTool` request of id `a1`. -/
def pendingSt : MCPBridge.State :=
  { connected := true, wsAlive := true, pingOn := true,
    handlers := [("a1", .executeToolCb)] }

/-- A sample tool descriptor. -/
def sampleTool : MCPBridge.MCPTool :=
  { name := "list_files", description := "List workspace files",
    parameters := [{ type := "string", description := "glob", required := false }] }

/-- A store holding one allocated array (the bridge's internal `tools`). -/
def sampleStore : MCPBridge.Store :=
  ⟨1, fun _ => [sampleTool]⟩

/-- A decoder that accepts every frame verbatim (used to instantiate the
chunking-invariance statement on a concrete stream). -/
def rawDecoder (l : List Char) : Option (List Char) := some l

/-- A concrete stdout stream (log text interleaved with two frames) cut at
arbitrary points, including inside a frame. -/
def sampleChunks : List (List Char) :=
  ["log\x7ba".toList, "b\x7djun".toList, "k\x7b".toList, "\x7d".toList]

/-! ## Helper lemmas -/

/-- Deleting a key from an association list makes lookups of it fail. -/
theorem mapGet_mapDel {β : Type} (l : List (String × β)) (k : String) :
    MCPBridge.mapGet (MCPBridge.mapDel l k) k = none := by
  induction l with
  | nil => rfl
  | cons p rest ih =>
      obtain ⟨k', v⟩ := p
      by_cases h : k' = k <;> simp [MCPBridge.mapDel, MCPBridge.mapGet, h, ih]

/-- `MCPBridge.handleMessage` always delivers the message to every
broadcast subscriber. -/
theorem bridge_handleMessage_broadcast (s : MCPBridge.State) (m : MCPBridge.MCPMessage) :
    (MCPBridge.handleMessage s m).2.1 = [m] := by
  unfold MCPBridge.handleMessage
  cases ht : m.tools <;> cases hid : m.id <;>
    simp only [] <;> split <;> simp

/-- On an uncorrelated message, `MCPBridge.handleMessage` runs no handler:
no settlement is produced and the pending map is unchanged. -/
theorem bridge_handleMessage_uncorrelated (s : MCPBridge.State) (m : MCPBridge.MCPMessage)
    (h : ∀ i, m.id = some i → MCPBridge.mapGet s.handlers i = none) :
    (MCPBridge.handleMessage s m).2.2 = [] ∧
    (MCPBridge.handleMessage s m).1.handlers = s.handlers := by
  unfold MCPBridge.handleMessage
  cases ht : m.tools with
  | none =>
      cases hid : m.id with
      | none => exact ⟨rfl, rfl⟩
      | some i => simp [h i hid]
  | some ts =>
      cases hid : m.id with
      | none => by_cases htyp : m.type = .list_tools <;> simp [htyp]
      | some i => by_cases htyp : m.type = .list_tools <;> simp [htyp, h i hid]

/-- `OMP.handleMessage` always delivers the message to every `onMessage`
listener. -/
theorem omp_handleMessage_broadcast (s : OMP.PState) (m : OMP.Msg) :
    (OMP.handleMessage s m).2.1 = [m] := by
  unfold OMP.handleMessage
  cases hid : m.id <;> simp

/-- On an uncorrelated message, `OMP.handleMessage` runs no callback: no
settlement is produced and the callback map is unchanged. -/
theorem omp_handleMessage_uncorrelated (s : OMP.PState) (m : OMP.Msg)
    (h : ∀ i, m.id = some i → MCPBridge.mapGet s.callbacks i = none) :
    (OMP.handleMessage s m).2.2 = [] ∧
    (OMP.handleMessage s m).1.callbacks = s.callbacks := by
  unfold OMP.handleMessage
  cases hid : m.id with
  | none => by_cases htyp : m.type = .initialize' <;> simp [htyp]
  | some i => by_cases htyp : m.type = .initialize' <;> simp [htyp, h i hid]

/-! ## Claim theorems -/

/-- C1: the claim states that every correlated request settles exactly once
for every possible reply.  The code violates this: with a `sendPrompt`
request pending under id `r1`, a reply carrying id `r1` but kind
`execute_tool_response` makes `handleMessage` run the prompt callback
(which matches neither branch, so it settles nothing) and delete the
callback entry, so the later timeout firing finds no entry and also settles
nothing — the caller's promise never settles (zero settlements). -/
theorem prompt_reply_of_unexpected_kind_never_settles :
    (OMP.runTrace promptPending [.deliver staleReply, .timeout "r1"]).2 = [] ∧
    (OMP.runTrace promptPending [.deliver staleReply, .timeout "r1"]).1.callbacks = [] := by
  decide

/-- C2: if the `executeTool` timeout fires while the request is still
pending, the entry is removed from the pending map and the caller is
rejected with the timeout error; a reply with that id arriving afterwards
runs no handler, settles nothing and leaves the pending map unchanged
(our embedding of `handleMessage` is a total function, so no exception is
raised either). -/
theorem executeTool_timeout_rejects_and_late_reply_ignored
    (s : MCPBridge.State) (i : String)
    (h : MCPBridge.mapGet s.handlers i = some .executeToolCb) :
    (MCPBridge.executeToolTimeout s i).2
        = [(i, .reject "Tool execution timed out")] ∧
    MCPBridge.mapGet (MCPBridge.executeToolTimeout s i).1.handlers i = none ∧
    ∀ m : MCPBridge.MCPMessage, m.id = some i →
      (MCPBridge.handleMessage (MCPBridge.executeToolTimeout s i).1 m).2.2 = [] ∧
      (MCPBridge.handleMessage (MCPBridge.executeToolTimeout s i).1 m).2.1 = [m] ∧
      (MCPBridge.handleMessage (MCPBridge.executeToolTimeout s i).1 m).1.handlers
        = (MCPBridge.executeToolTimeout s i).1.handlers := by
  have hs : MCPBridge.executeToolTimeout s i
      = ({ s with handlers := MCPBridge.mapDel s.handlers i },
         [(i, .reject "Tool execution timed out")]) := by
    unfold MCPBridge.executeToolTimeout
    rw [h]
    rfl
  refine ⟨by rw [hs], by rw [hs]; exact mapGet_mapDel _ _, ?_⟩
  intro m hm
  have hnone : ∀ j, m.id = some j →
      MCPBridge.mapGet (MCPBridge.executeToolTimeout s i).1.handlers j = none := by
    intro j hj
    rw [hm] at hj
    cases hj
    rw [hs]
    exact mapGet_mapDel _ _
  obtain ⟨h1, h2⟩ := bridge_handleMessage_uncorrelated _ m hnone
  exact ⟨h1, bridge_handleMessage_broadcast _ m, h2⟩

/-- Witness for C2 at a concrete pending state and late reply. -/
theorem executeTool_timeout_rejects_and_late_reply_ignored_witness :
    (MCPBridge.executeToolTimeout pendingSt "a1").2
        = [("a1", .reject "Tool execution timed out")] ∧
    (MCPBridge.handleMessage (MCPBridge.executeToolTimeout pendingSt "a1").1
        { type := .tool_result, id := some "a1" }).2.2 = [] := by
  have h := executeTool_timeout_rejects_and_late_reply_ignored pendingSt "a1" (by decide)
  exact ⟨h.1, (h.2.2 { type := .tool_result, id := some "a1" } rfl).1⟩

/-- C3: in both bridge implementations every inbound message is delivered
to all broadcast subscribers, whether or not it is also correlated; and a
message whose id matches no pending request produces no settlement and
leaves the pending map unchanged (only broadcast delivery happens, and the
total handling function raises no exception). -/
theorem inbound_always_broadcast_uncorrelated_only_broadcast :
    (∀ (s : MCPBridge.State) (m : MCPBridge.MCPMessage),
        (MCPBridge.handleMessage s m).2.1 = [m] ∧
        ((∀ i, m.id = some i → MCPBridge.mapGet s.handlers i = none) →
          (MCPBridge.handleMessage s m).2.2 = [] ∧
          (MCPBridge.handleMessage s m).1.handlers = s.handlers)) ∧
    (∀ (s : OMP.PState) (m : OMP.Msg),
        (OMP.handleMessage s m).2.1 = [m] ∧
        ((∀ i, m.id = some i → MCPBridge.mapGet s.callbacks i = none) →
          (OMP.handleMessage s m).2.2 = [] ∧
          (OMP.handleMessage s m).1.callbacks = s.callbacks)) := by
  constructor
  · intro s m
    exact ⟨bridge_handleMessage_broadcast s m, bridge_handleMessage_uncorrelated s m⟩
  · intro s m
    exact ⟨omp_handleMessage_broadcast s m, omp_handleMessage_uncorrelated s m⟩

/-- Witness for C3: a concrete unsolicited reply on both bridges. -/
theorem inbound_always_broadcast_uncorrelated_only_broadcast_witness :
    (MCPBridge.handleMessage {} { type := .tool_result, id := some "z1" }).2.1
        = [{ type := .tool_result, id := some "z1" }] ∧
    (MCPBridge.handleMessage {} { type := .tool_result, id := some "z1" }).2.2 = [] ∧
    (OMP.handleMessage {} { type := .prompt_response, id := some "z1" }).2.1
        = [{ type := .prompt_response, id := some "z1" }] ∧
    (OMP.handleMessage {} { type := .prompt_response, id := some "z1" }).2.2 = [] := by
  have hb := inbound_always_broadcast_uncorrelated_only_broadcast.1
      {} { type := .tool_result, id := some "z1" }
  have ho := inbound_always_broadcast_uncorrelated_only_broadcast.2
      {} { type := .prompt_response, id := some "z1" }
  exact ⟨hb.1, (hb.2 fun i _ => rfl).1, ho.1, (ho.2 fun i _ => rfl).1⟩

/-- C4: `scheduleReconnect` arms its timer with
`min(2 ^ attempts * 1000, 30000)` milliseconds and increments the attempt
counter afterwards, so the delays of attempts 0 through 6 are exactly
1000, 2000, 4000, 8000, 16000, 30000, 30000 ms. -/
theorem reconnect_backoff_delays :
    (∀ s : MCPBridge.State,
        (MCPBridge.scheduleReconnect s).reconnectAttempts = s.reconnectAttempts + 1 ∧
        (MCPBridge.scheduleReconnect s).reconnectTimer
          = some (min (2 ^ s.reconnectAttempts * 1000) 30000)) ∧
    MCPBridge.reconnectDelaySeq 7 {} = [1000, 2000, 4000, 8000, 16000, 30000, 30000] := by
  exact ⟨fun s => ⟨rfl, rfl⟩, by decide⟩

/-- C5: the claim states the bridge never auto-reconnects after an explicit
`disconnect()`.  The code violates this: `disconnect()` calls
`ws.terminate()`, the socket then emits its close event, and the close
listener (still registered) unconditionally calls `scheduleReconnect`,
arming a 1000 ms reconnect timer — even though `disconnect()` itself had
just cleared the timer. -/
theorem disconnect_then_close_event_schedules_reconnect :
    (MCPBridge.disconnect connectedSt).2 = true ∧
    (MCPBridge.disconnect connectedSt).1.reconnectTimer = none ∧
    (MCPBridge.closeHandler (MCPBridge.disconnect connectedSt).1).reconnectTimer
        = some 1000 ∧
    (MCPBridge.closeHandler (MCPBridge.disconnect connectedSt).1).reconnectAttempts = 1 := by
  decide

/-- C6: the claim states that `dispose()` rejects every pending request
with a disposal reason.  The code violates this: `dispose()` only calls
`disconnect()` and disposes the event emitter; no code path touches
`messageHandlers`, so disposal produces no settlement at all and the
pending entry survives (shown both for every state and at a concrete
pending request `a1`). -/
theorem dispose_leaves_pending_requests_unsettled :
    (∀ s : MCPBridge.State,
        (MCPBridge.dispose s).2 = [] ∧ (MCPBridge.dispose s).1.1.handlers = s.handlers) ∧
    (MCPBridge.dispose pendingSt).2 = [] ∧
    (MCPBridge.dispose pendingSt).1.1.handlers
        = [("a1", MCPBridge.HandlerKind.executeToolCb)] := by
  refine ⟨fun s => ?_, by decide, by decide⟩
  unfold MCPBridge.dispose MCPBridge.disconnect
  by_cases h : s.wsAlive = true <;> simp [h]

/-- C7: the claim states that every serialized message round-trips through
the brace-counting framer.  The code violates this: for the prompt message
with content `"}"`, the framer treats the `}` inside the JSON string
literal as the closing brace, extracts an unparseable frame, and the error
recovery then clears the buffer — no message is decoded at all, although
the full serialization itself decodes back to the original message. -/
theorem framer_drops_prompt_containing_close_brace :
    OMP.runFramer OMP.parsePromptMsg (OMP.serializePrompt "r1".toList ['}'])
        = ([], 1, []) ∧
    OMP.parsePromptMsg (OMP.serializePrompt "r1".toList ['}'])
        = some ("r1".toList, ['}']) := by
  decide

/-- C9: `getTools()` returns a defensive copy — after mutating the array a
`getTools()` call returned, the internal catalog still reads the same
contents, and a subsequent `getTools()` call again returns those same
contents. -/
theorem getTools_defensive_copy (toolsRef : Nat) (σ : MCPBridge.Store)
    (v : List MCPBridge.MCPTool) (h : toolsRef < σ.next) :
    MCPBridge.Store.read
        (MCPBridge.Store.write (MCPBridge.getTools toolsRef σ).2
          (MCPBridge.getTools toolsRef σ).1 v) toolsRef
      = MCPBridge.Store.read σ toolsRef ∧
    MCPBridge.Store.read
        (MCPBridge.getTools toolsRef
          (MCPBridge.Store.write (MCPBridge.getTools toolsRef σ).2
            (MCPBridge.getTools toolsRef σ).1 v)).2
        (MCPBridge.getTools toolsRef
          (MCPBridge.Store.write (MCPBridge.getTools toolsRef σ).2
            (MCPBridge.getTools toolsRef σ).1 v)).1
      = MCPBridge.Store.read σ toolsRef := by
  have hne : toolsRef ≠ σ.next := Nat.ne_of_lt h
  constructor <;>
    simp [MCPBridge.getTools, MCPBridge.Store.alloc, MCPBridge.Store.write,
      MCPBridge.Store.read, hne]

/-- Witness for C9 at a concrete store and mutation. -/
theorem getTools_defensive_copy_witness :
    0 < sampleStore.next ∧
    MCPBridge.Store.read
        (MCPBridge.Store.write (MCPBridge.getTools 0 sampleStore).2
          (MCPBridge.getTools 0 sampleStore).1 []) 0
      = MCPBridge.Store.read sampleStore 0 := by
  exact ⟨by decide, (getTools_defensive_copy 0 sampleStore [] (by decide)).1⟩

/-- C10: an inbound `list_tools` message carrying a `tools` field replaces
the cached catalog even when its id matches no pending request, so the
catalog can change without any catalog request having been issued. -/
theorem unsolicited_list_tools_replaces_catalog
    (s : MCPBridge.State) (m : MCPBridge.MCPMessage) (ts : List MCPBridge.MCPTool)
    (h1 : m.type = .list_tools) (h2 : m.tools = some ts)
    (h3 : ∀ i, m.id = some i → MCPBridge.mapGet s.handlers i = none) :
    (MCPBridge.handleMessage s m).1.tools = ts := by
  unfold MCPBridge.handleMessage
  rw [h2]
  cases hid : m.id with
  | none => simp [h1]
  | some i => simp [h1, h3 i hid]

/-- Witness for C10: an unsolicited catalog push on a fresh bridge. -/
theorem unsolicited_list_tools_replaces_catalog_witness :
    (MCPBridge.handleMessage {}
        { type := .list_tools, id := some "z9", tools := some [sampleTool] }).1.tools
      = [sampleTool] := by
  exact unsolicited_list_tools_replaces_catalog {}
    { type := .list_tools, id := some "z9", tools := some [sampleTool] }
    [sampleTool] rfl rfl (fun i _ => rfl)


/-! ## Framer lemmas (towards chunking invariance) -/

/-- A found first index lies within the list. -/
theorem firstIdx_lt_length {cs : List Char} {c : Char} {s : Nat}
    (h : OMP.firstIdx cs c = some s) : s < cs.length := by
  induction cs generalizing s with
  | nil => cases h
  | cons a rest ih =>
      by_cases ha : a = c
      · simp [OMP.firstIdx, ha] at h
        simp [← h]
      · simp [OMP.firstIdx, ha] at h
        obtain ⟨t, ht, hs⟩ := h
        have := ih ht
        simp only [List.length_cons]
        omega

/-- The first index is unchanged by appending on the right. -/
theorem firstIdx_append {cs l2 : List Char} {c : Char} {s : Nat}
    (h : OMP.firstIdx cs c = some s) : OMP.firstIdx (cs ++ l2) c = some s := by
  induction cs generalizing s with
  | nil => cases h
  | cons a rest ih =>
      by_cases ha : a = c
      · simpa [OMP.firstIdx, ha] using h
      · simp [OMP.firstIdx, ha] at h ⊢
        obtain ⟨t, ht, hs⟩ := h
        exact ⟨t, ih ht, hs⟩

/-- The index the depth scan returns lies between its start and the end of
the scanned characters. -/
theorem scanAux_bounds {l : List Char} {d : Int} {i e : Nat}
    (h : OMP.scanAux l d i = some e) : i ≤ e ∧ e < i + l.length := by
  induction l generalizing d i with
  | nil => cases h
  | cons a rest ih =>
      unfold OMP.scanAux at h
      simp only [List.length_cons]
      by_cases h1 : a = '{'
      · rw [if_pos h1] at h
        have := ih h
        omega
      · rw [if_neg h1] at h
        by_cases h2 : a = '}'
        · rw [if_pos h2] at h
          by_cases h3 : d - 1 = 0
          · rw [if_pos h3] at h
            have he : i = e := by simpa using h
            omega
          · rw [if_neg h3] at h
            have := ih h
            omega
        · rw [if_neg h2] at h
          have := ih h
          omega

/-- A successful depth scan is unchanged by appending on the right. -/
theorem scanAux_append {l l2 : List Char} {d : Int} {i e : Nat}
    (h : OMP.scanAux l d i = some e) : OMP.scanAux (l ++ l2) d i = some e := by
  induction l generalizing d i with
  | nil => cases h
  | cons a rest ih =>
      simp only [List.cons_append]
      unfold OMP.scanAux at h ⊢
      by_cases h1 : a = '{'
      · rw [if_pos h1] at h ⊢
        exact ih h
      · by_cases h2 : a = '}'
        · rw [if_neg h1, if_pos h2] at h ⊢
          by_cases h3 : d - 1 = 0
          · rw [if_pos h3] at h ⊢
            exact h
          · rw [if_neg h3] at h ⊢
            exact ih h
        · rw [if_neg h1, if_neg h2] at h ⊢
          exact ih h

/-- Unfolding equation of `processOutput` at positive fuel. -/
theorem processOutput_succ {α : Type} (parse : List Char → Option α)
    (fuel : Nat) (buf : List Char) :
    OMP.processOutput parse (fuel + 1) buf =
      match OMP.firstIdx buf '{' with
      | none => ([], 0, buf)
      | some s =>
          match OMP.scanEnd buf s with
          | none => ([], 0, buf)
          | some e =>
              match parse ((buf.drop s).take (e + 1 - s)) with
              | some m =>
                  (m :: (OMP.processOutput parse fuel (buf.drop (e + 1))).1,
                   (OMP.processOutput parse fuel (buf.drop (e + 1))).2.1,
                   (OMP.processOutput parse fuel (buf.drop (e + 1))).2.2)
              | none =>
                  match OMP.idxFrom buf '{' (s + 1) with
                  | some ns => ([], 1, buf.drop ns)
                  | none => ([], 1, []) := rfl

/-- The result of `processOutput` does not depend on the fuel once the fuel
covers the buffer length. -/
theorem processOutput_fuel_irrelevant {α : Type} (parse : List Char → Option α) :
    ∀ fuel buf, buf.length ≤ fuel →
      OMP.processOutput parse fuel buf = OMP.runFramer parse buf := by
  intro fuel
  induction fuel using Nat.strong_induction_on with
  | _ fuel ih =>
      intro buf hle
      cases fuel with
      | zero =>
          have hb : buf = [] := List.eq_nil_of_length_eq_zero (Nat.le_zero.mp hle)
          subst hb
          rfl
      | succ f =>
          cases buf with
          | nil => rfl
          | cons a bs =>
              have hbs : bs.length ≤ f := by
                simpa using hle
              unfold OMP.runFramer
              simp only [List.length_cons]
              rw [processOutput_succ, processOutput_succ]
              split
              · rfl
              · split
                · rfl
                · split
                  · rename_i x1 s heq1 x2 e hs x3 m hp
                    have hl : ((a :: bs).drop (e + 1)).length ≤ bs.length := by
                      simp only [List.length_drop, List.length_cons]
                      omega
                    rw [ih f (Nat.lt_succ_self f) _ (le_trans hl hbs),
                      ih bs.length (Nat.lt_succ_of_le hbs) _ hl]
                  · rfl

/-- Unfolding equation of `runFramer`. -/
theorem runFramer_eq {α : Type} (parse : List Char → Option α) (buf : List Char) :
    OMP.runFramer parse buf =
      match OMP.firstIdx buf '{' with
      | none => ([], 0, buf)
      | some s =>
          match OMP.scanEnd buf s with
          | none => ([], 0, buf)
          | some e =>
              match parse ((buf.drop s).take (e + 1 - s)) with
              | some m =>
                  (m :: (OMP.runFramer parse (buf.drop (e + 1))).1,
                   (OMP.runFramer parse (buf.drop (e + 1))).2.1,
                   (OMP.runFramer parse (buf.drop (e + 1))).2.2)
              | none =>
                  match OMP.idxFrom buf '{' (s + 1) with
                  | some ns => ([], 1, buf.drop ns)
                  | none => ([], 1, []) := by
  cases buf with
  | nil => rfl
  | cons a bs =>
      unfold OMP.runFramer
      simp only [List.length_cons]
      rw [processOutput_succ]
      split
      · rfl
      · split
        · rfl
        · split
          · rename_i x1 s heq1 x2 e hs x3 m hp
            have hl : ((a :: bs).drop (e + 1)).length ≤ bs.length := by
              simp only [List.length_drop, List.length_cons]
              omega
            rw [processOutput_fuel_irrelevant parse bs.length _ hl]
            rfl
          · rfl

/-- `runFramer` is quiescent when the buffer holds no opening brace. -/
theorem runFramer_no_brace {α : Type} (parse : List Char → Option α) {buf : List Char}
    (h : OMP.firstIdx buf '{' = none) : OMP.runFramer parse buf = ([], 0, buf) := by
  rw [runFramer_eq, h]

/-- `runFramer` is quiescent when the first frame is still incomplete. -/
theorem runFramer_no_end {α : Type} (parse : List Char → Option α) {buf : List Char} {s : Nat}
    (h1 : OMP.firstIdx buf '{' = some s) (h2 : OMP.scanEnd buf s = none) :
    OMP.runFramer parse buf = ([], 0, buf) := by
  rw [runFramer_eq]
  simp only [h1, h2]

/-- `runFramer` on a decodable complete frame emits it and continues behind
it. -/
theorem runFramer_emit {α : Type} (parse : List Char → Option α) {buf : List Char}
    {s e : Nat} {m : α}
    (h1 : OMP.firstIdx buf '{' = some s) (h2 : OMP.scanEnd buf s = some e)
    (h3 : parse ((buf.drop s).take (e + 1 - s)) = some m) :
    OMP.runFramer parse buf
      = (m :: (OMP.runFramer parse (buf.drop (e + 1))).1,
         (OMP.runFramer parse (buf.drop (e + 1))).2.1,
         (OMP.runFramer parse (buf.drop (e + 1))).2.2) := by
  rw [runFramer_eq]
  simp only [h1, h2, h3]

/-- `runFramer` on an undecodable complete frame records one error and
resynchronizes. -/
theorem runFramer_fail {α : Type} (parse : List Char → Option α) {buf : List Char}
    {s e : Nat}
    (h1 : OMP.firstIdx buf '{' = some s) (h2 : OMP.scanEnd buf s = some e)
    (h3 : parse ((buf.drop s).take (e + 1 - s)) = none) :
    OMP.runFramer parse buf
      = ([], 1,
          match OMP.idxFrom buf '{' (s + 1) with
          | some ns => buf.drop ns
          | none => []) := by
  rw [runFramer_eq]
  simp only [h1, h2, h3]
  cases OMP.idxFrom buf '{' (s + 1) <;> rfl

/-- The matching close brace lies between the open brace and the end of the
buffer. -/
theorem scanEnd_bounds_of {buf : List Char} {s e : Nat}
    (h1 : OMP.firstIdx buf '{' = some s) (h2 : OMP.scanEnd buf s = some e) :
    s ≤ e ∧ e < buf.length := by
  have hs := firstIdx_lt_length h1
  have hb := scanAux_bounds h2
  simp only [List.length_drop] at hb
  omega

/-- A successful frame scan is unchanged by appending on the right. -/
theorem scanEnd_append_of {buf c : List Char} {s e : Nat}
    (h1 : OMP.firstIdx buf '{' = some s) (h2 : OMP.scanEnd buf s = some e) :
    OMP.scanEnd (buf ++ c) s = some e := by
  unfold OMP.scanEnd at h2 ⊢
  rw [List.drop_append_of_le_length (le_of_lt (firstIdx_lt_length h1))]
  exact scanAux_append h2

/-- The extracted frame is unchanged by appending on the right. -/
theorem frame_take_append {buf c : List Char} {s e : Nat}
    (h1 : OMP.firstIdx buf '{' = some s) (h2 : OMP.scanEnd buf s = some e) :
    (((buf ++ c).drop s).take (e + 1 - s)) = ((buf.drop s).take (e + 1 - s)) := by
  have hb := scanEnd_bounds_of h1 h2
  have hs := firstIdx_lt_length h1
  rw [List.drop_append_of_le_length (le_of_lt hs)]
  apply List.take_append_of_le_length
  simp only [List.length_drop]
  omega

/-- Dropping past the frame commutes with appending on the right. -/
theorem rest_drop_append {buf c : List Char} {s e : Nat}
    (h1 : OMP.firstIdx buf '{' = some s) (h2 : OMP.scanEnd buf s = some e) :
    (buf ++ c).drop (e + 1) = buf.drop (e + 1) ++ c := by
  have hb := scanEnd_bounds_of h1 h2
  exact List.drop_append_of_le_length (by omega)

/-- Splitting one chunk off an error-free stream: running the framer over
`buf ++ c` emits what running it over `buf` emits followed by what running
it over the residual buffer extended with `c` emits, error-free
throughout, with matching residual buffers. -/
theorem runFramer_append {α : Type} (parse : List Char → Option α) :
    ∀ n (buf c : List Char), buf.length = n →
      (OMP.runFramer parse (buf ++ c)).2.1 = 0 →
      (OMP.runFramer parse buf).2.1 = 0 ∧
      (OMP.runFramer parse ((OMP.runFramer parse buf).2.2 ++ c)).2.1 = 0 ∧
      (OMP.runFramer parse (buf ++ c)).1
        = (OMP.runFramer parse buf).1
            ++ (OMP.runFramer parse ((OMP.runFramer parse buf).2.2 ++ c)).1 ∧
      (OMP.runFramer parse (buf ++ c)).2.2
        = (OMP.runFramer parse ((OMP.runFramer parse buf).2.2 ++ c)).2.2 := by
  intro n
  induction n using Nat.strong_induction_on with
  | _ n ih =>
      intro buf c hn h
      cases hf : OMP.firstIdx buf '{' with
      | none =>
          rw [runFramer_no_brace parse hf]
          exact ⟨rfl, h, by simp, rfl⟩
      | some s =>
          cases hs : OMP.scanEnd buf s with
          | none =>
              rw [runFramer_no_end parse hf hs]
              exact ⟨rfl, h, by simp, rfl⟩
          | some e =>
              have hfa : OMP.firstIdx (buf ++ c) '{' = some s := firstIdx_append hf
              have hsa : OMP.scanEnd (buf ++ c) s = some e := scanEnd_append_of hf hs
              have hframe := frame_take_append (c := c) hf hs
              have hb := scanEnd_bounds_of hf hs
              cases hp : parse ((buf.drop s).take (e + 1 - s)) with
              | some m =>
                  have hp' : parse (((buf ++ c).drop s).take (e + 1 - s)) = some m := by
                    rw [hframe]
                    exact hp
                  have hrest := rest_drop_append (c := c) hf hs
                  have hL := runFramer_emit parse hf hs hp
                  have hLC := runFramer_emit parse hfa hsa hp'
                  rw [hrest] at hLC
                  have hlen : (buf.drop (e + 1)).length < n := by
                    simp only [List.length_drop]
                    omega
                  have h' : (OMP.runFramer parse (buf.drop (e + 1) ++ c)).2.1 = 0 := by
                    rw [hLC] at h
                    exact h
                  obtain ⟨ih1, ih2, ih3, ih4⟩ :=
                    ih (buf.drop (e + 1)).length hlen (buf.drop (e + 1)) c rfl h'
                  refine ⟨?_, ?_, ?_, ?_⟩
                  · rw [hL]
                    exact ih1
                  · rw [hL]
                    exact ih2
                  · rw [hL, hLC]
                    simp only [List.cons_append]
                    rw [ih3]
                  · rw [hL, hLC]
                    exact ih4
              | none =>
                  exfalso
                  have hp' : parse (((buf ++ c).drop s).take (e + 1 - s)) = none := by
                    rw [hframe]
                    exact hp
                  rw [runFramer_fail parse hfa hsa hp'] at h
                  simp at h

/-- After an error-free run, the residual buffer is quiescent: running the
framer on it again emits nothing and leaves it unchanged. -/
theorem runFramer_residual_quiescent {α : Type} (parse : List Char → Option α) :
    ∀ n (buf : List Char), buf.length = n →
      (OMP.runFramer parse buf).2.1 = 0 →
      OMP.runFramer parse ((OMP.runFramer parse buf).2.2)
        = ([], 0, (OMP.runFramer parse buf).2.2) := by
  intro n
  induction n using Nat.strong_induction_on with
  | _ n ih =>
      intro buf hn h
      cases hf : OMP.firstIdx buf '{' with
      | none =>
          rw [runFramer_no_brace parse hf]
          exact runFramer_no_brace parse hf
      | some s =>
          cases hs : OMP.scanEnd buf s with
          | none =>
              rw [runFramer_no_end parse hf hs]
              exact runFramer_no_end parse hf hs
          | some e =>
              have hb := scanEnd_bounds_of hf hs
              cases hp : parse ((buf.drop s).take (e + 1 - s)) with
              | some m =>
                  have hL := runFramer_emit parse hf hs hp
                  have hlen : (buf.drop (e + 1)).length < n := by
                    simp only [List.length_drop]
                    omega
                  have h' : (OMP.runFramer parse (buf.drop (e + 1))).2.1 = 0 := by
                    rw [hL] at h
                    exact h
                  have := ih (buf.drop (e + 1)).length hlen (buf.drop (e + 1)) rfl h'
                  rw [hL]
                  exact this
              | none =>
                  exfalso
                  rw [runFramer_fail parse hf hs hp] at h
                  simp at h

/-- Incremental feeding of an error-free stream equals the batch run,
starting from any quiescent residual buffer. -/
theorem feedChunks_eq_batch {α : Type} (parse : List Char → Option α) :
    ∀ (chunks : List (List Char)) (b : List Char),
      OMP.runFramer parse b = ([], 0, b) →
      (OMP.runFramer parse (b ++ chunks.flatten)).2.1 = 0 →
      OMP.feedChunks parse b chunks = OMP.runFramer parse (b ++ chunks.flatten) := by
  intro chunks
  induction chunks with
  | nil =>
      intro b hq _
      simp only [OMP.feedChunks, List.flatten_nil, List.append_nil]
      exact hq.symm
  | cons c cs ih =>
      intro b hq h
      have hassoc : b ++ (c :: cs).flatten = (b ++ c) ++ cs.flatten := by
        simp [List.flatten_cons, List.append_assoc]
      rw [hassoc] at h ⊢
      obtain ⟨h1, h2, h3, h4⟩ :=
        runFramer_append parse (b ++ c).length (b ++ c) cs.flatten rfl h
      have hq' : OMP.runFramer parse ((OMP.runFramer parse (b ++ c)).2.2)
          = ([], 0, (OMP.runFramer parse (b ++ c)).2.2) :=
        runFramer_residual_quiescent parse (b ++ c).length (b ++ c) rfl h1
      have hrec := ih ((OMP.runFramer parse (b ++ c)).2.2) hq' h2
      simp only [OMP.feedChunks]
      rw [hrec]
      refine Prod.ext ?_ (Prod.ext ?_ ?_)
      · simp only []
        rw [← h3]
      · simp only []
        rw [h1, h2, h]
      · simp only []
        rw [← h4]

/-- C8: chunking invariance of the framer — for every decoder, every valid
stream (one whose batch run decodes without error) and every way of
splitting the stream into chunks, feeding the chunks one at a time emits
the same sequence of decoded messages as feeding the whole stream at
once. -/
theorem framer_chunking_invariance {α : Type} (parse : List Char → Option α)
    (chunks : List (List Char))
    (h : (OMP.runFramer parse chunks.flatten).2.1 = 0) :
    (OMP.feedChunks parse [] chunks).1 = (OMP.runFramer parse chunks.flatten).1 := by
  have h0 : OMP.runFramer parse ([] : List Char) = ([], 0, []) := rfl
  have h' : (OMP.runFramer parse (([] : List Char) ++ chunks.flatten)).2.1 = 0 := by
    rw [List.nil_append]
    exact h
  have hmain := feedChunks_eq_batch parse chunks [] h0 h'
  rw [List.nil_append] at hmain
  rw [hmain]

/-- Witness for C8 on a concrete chunked stream. -/
theorem framer_chunking_invariance_witness :
    (OMP.runFramer rawDecoder sampleChunks.flatten).2.1 = 0 ∧
    (OMP.feedChunks rawDecoder [] sampleChunks).1
      = (OMP.runFramer rawDecoder sampleChunks.flatten).1 :=
  ⟨by decide, framer_chunking_invariance rawDecoder sampleChunks (by decide)⟩
